import Mathlib

/-!
Verification of the vyper codegen core (src/vyper/codegen/module.py and
src/vyper/codegen/self_call.py) against its specification.

The Python source is shallowly embedded: each Python function becomes a Lean
function over explicit data; the module-global label counter and the memory
allocator of the per-function context become explicitly threaded state;
exceptions become an Except monad.  Collaborators that live outside the two
source files (the per-function code generator, the expression code generator,
the IR node class, make_setter, and the memory allocator) are modelled from
the specification and are marked as such in their doc comments.
-/

/-- Vyper value types, as far as the two source files use them: a type is only
ever consulted for its memory footprint (allocation of return and temporary
buffers) and for building the tuple types `args_tuple_t` / `dst_tuple_t`. -/
inductive VyType where
  | base (sz : Nat)
  | tuple (ts : List VyType)

mutual

def VyType.decEq : (a b : VyType) → Decidable (a = b)
  | .base m, .base n =>
    if h : m = n then .isTrue (by rw [h]) else .isFalse (by intro hc; cases hc; exact h rfl)
  | .base _, .tuple _ => .isFalse (by intro hc; cases hc)
  | .tuple _, .base _ => .isFalse (by intro hc; cases hc)
  | .tuple ts, .tuple us =>
    match VyType.decEqList ts us with
    | .isTrue h => .isTrue (by rw [h])
    | .isFalse h => .isFalse (by intro hc; cases hc; exact h rfl)

def VyType.decEqList : (a b : List VyType) → Decidable (a = b)
  | [], [] => .isTrue rfl
  | [], _ :: _ => .isFalse (by intro hc; cases hc)
  | _ :: _, [] => .isFalse (by intro hc; cases hc)
  | x :: xs, y :: ys =>
    match VyType.decEq x y, VyType.decEqList xs ys with
    | .isTrue h1, .isTrue h2 => .isTrue (by rw [h1, h2])
    | .isFalse h1, _ => .isFalse (by intro hc; cases hc; exact h1 rfl)
    | .isTrue _, .isFalse h2 => .isFalse (by intro hc; cases hc; exact h2 rfl)

end

instance : DecidableEq VyType := VyType.decEq

mutual

/-- Modelled from the spec: memory footprint of a type, used by the
allocator behind `context.new_internal_variable`. -/
def typeSize : VyType → Nat
  | .base sz => sz
  | .tuple ts => typeSizeList ts

def typeSizeList : List VyType → Nat
  | [] => 0
  | t :: ts => typeSize t + typeSizeList ts

end

/-- Leaf payload of an IR node: an op/label name or an integer literal. -/
inductive IRValue where
  | str (s : String)
  | num (n : Nat)
deriving DecidableEq

/-- Memory location class of a typed IR expression (only MEMORY is used by
the two source files). -/
inductive Location where
  | memory
deriving DecidableEq

/-- Modelled from the spec (the IRnode class of vyper/codegen/ir_node.py is
not part of the source snapshot): a tagged tree whose leaf payload is an
op-name or number, decorated with an optional result type, an optional
location class, an optional human-readable annotation, and the boolean
"may perform a self-call" flag used for hazard detection. -/
inductive IRnode where
  | mk (value : IRValue) (args : List IRnode) (typ : Option VyType)
       (location : Option Location) (ann : Option String) (is_self_call : Bool)

mutual

def IRnode.decEq : (a b : IRnode) → Decidable (a = b)
  | .mk v1 a1 t1 l1 n1 s1, .mk v2 a2 t2 l2 n2 s2 =>
    if hv : v1 = v2 then
      match IRnode.decEqList a1 a2 with
      | .isTrue ha =>
        if ht : t1 = t2 then
          if hl : l1 = l2 then
            if hn : n1 = n2 then
              if hs : s1 = s2 then
                .isTrue (by rw [hv, ha, ht, hl, hn, hs])
              else .isFalse (by intro hc; cases hc; exact hs rfl)
            else .isFalse (by intro hc; cases hc; exact hn rfl)
          else .isFalse (by intro hc; cases hc; exact hl rfl)
        else .isFalse (by intro hc; cases hc; exact ht rfl)
      | .isFalse ha => .isFalse (by intro hc; cases hc; exact ha rfl)
    else .isFalse (by intro hc; cases hc; exact hv rfl)

def IRnode.decEqList : (a b : List IRnode) → Decidable (a = b)
  | [], [] => .isTrue rfl
  | [], _ :: _ => .isFalse (by intro hc; cases hc)
  | _ :: _, [] => .isFalse (by intro hc; cases hc)
  | x :: xs, y :: ys =>
    match IRnode.decEq x y, IRnode.decEqList xs ys with
    | .isTrue h1, .isTrue h2 => .isTrue (by rw [h1, h2])
    | .isFalse h1, _ => .isFalse (by intro hc; cases hc; exact h1 rfl)
    | .isTrue _, .isFalse h2 => .isFalse (by intro hc; cases hc; exact h2 rfl)

end

instance : DecidableEq IRnode := IRnode.decEq

/-- The children of an IR node. -/
def IRnode.children : IRnode → List IRnode
  | .mk _ a _ _ _ _ => a

/-- The leaf payload of an IR node. -/
def IRnode.valueOf : IRnode → IRValue
  | .mk v _ _ _ _ _ => v

/-- The "may perform a self-call" flag of an IR node. -/
def IRnode.selfCallFlag : IRnode → Bool
  | .mk _ _ _ _ _ s => s

/-- The optional result type of an IR node. -/
def IRnode.typOf : IRnode → Option VyType
  | .mk _ _ t _ _ _ => t

/-- `IRnode.from_list` on a plain nested list: no type, no location, no
annotation, self-call flag unset. -/
def IRnode.simple (v : IRValue) (args : List IRnode) : IRnode :=
  IRnode.mk v args none none none false

mutual

/-- Modelled from the spec: the hazard-detection query of the IR node class.
A tree "contains a self call" when any node of the tree (itself included)
carries the `is_self_call` flag. -/
def contains_self_call : IRnode → Bool
  | .mk _ args _ _ _ flag => flag || containsListSelfCall args

def containsListSelfCall : List IRnode → Bool
  | [] => false
  | x :: xs => contains_self_call x || containsListSelfCall xs

end

mutual

/-- Subtree occurrence test: `occursIn t a` holds when `t` appears somewhere
inside the tree `a` (including `a` itself). -/
def occursIn (t : IRnode) : IRnode → Bool
  | .mk v args ty loc an fl =>
    (IRnode.mk v args ty loc an fl == t) || occursInList t args

def occursInList (t : IRnode) : List IRnode → Bool
  | [] => false
  | x :: xs => occursIn t x || occursInList t xs

end

/-- Decimal digit character, as produced by Python string formatting. -/
def digitChar (n : Nat) : Char := Char.ofNat (48 + n)

/-- Fuel-bounded decimal rendering helper (the fuel is only a termination
device; `natDecimal` always supplies enough). -/
def natDecimalAux : Nat → Nat → List Char
  | 0, _ => []
  | fuel + 1, n =>
    if n < 10 then [digitChar n]
    else natDecimalAux fuel (n / 10) ++ [digitChar (n % 10)]

/-- Modelled from the spec: Python's decimal rendering of an integer, as used
by the f-string in `_generate_label`. -/
def natDecimal (n : Nat) : List Char := natDecimalAux (n + 1) n

/-- The decimal rendering as a string. -/
def natStr (n : Nat) : String := String.mk (natDecimal n)


/-- Embedding of `_generate_label` (src/vyper/codegen/self_call.py, lines
7-14).  The process-global `_label_counter` becomes an explicit counter
argument, returned alongside the label.  Note that the source ignores the
`name` argument: the produced label is the fixed text "label" followed by the
incremented counter. -/
def _generate_label (name : String) (counter : Nat) : String × Nat :=
  (("label" ++ natStr (counter + 1)), counter + 1)


/-- Embedding of `_topsort_helper` (src/vyper/codegen/module.py, lines 15-28).
The Python function recurses along the call graph with no termination device;
the embedding adds a fuel argument, decremented on every recursive step, so
that the Python behaviour is the supremum over all fuels (`none` means the
recursion has not terminated within the given depth).  The `lookup` dict of
the source is folded into the `callees` map, which returns the resolved
callee list of a function. -/
def _topsort_helper {α : Type} (callees : α → List α) : Nat → List α → Option (List α)
  | 0, _ => none
  | _ + 1, [] => some []
  | fuel + 1, f :: fs =>
    match _topsort_helper callees fuel (callees f) with
    | none => none
    | some a =>
      match _topsort_helper callees fuel fs with
      | none => none
      | some b => some (a ++ f :: b)

/-- Accumulator version of `dict.fromkeys` deduplication: keeps the first
occurrence of each element, preserving order. -/
def dedupFirstAux {α : Type} [DecidableEq α] (seen : List α) : List α → List α
  | [] => []
  | x :: xs =>
    if x ∈ seen then dedupFirstAux seen xs else x :: dedupFirstAux (x :: seen) xs

/-- `list(dict.fromkeys(l))`: strip duplicates keeping first occurrences. -/
def dedupFirst {α : Type} [DecidableEq α] (l : List α) : List α :=
  dedupFirstAux [] l

/-- Embedding of `_topsort` (src/vyper/codegen/module.py, lines 31-34), with
the explicit fuel of `_topsort_helper`. -/
def _topsort {α : Type} [DecidableEq α] (callees : α → List α) (fuel : Nat)
    (functions : List α) : Option (List α) :=
  (_topsort_helper callees fuel functions).map dedupFirst

/-- Direct or transitive reachability in the resolved call graph. -/
inductive Reaches {α : Type} (callees : α → List α) : α → α → Prop
  | direct : ∀ {f c}, c ∈ callees f → Reaches callees f c
  | step : ∀ {f c d}, c ∈ callees f → Reaches callees c d → Reaches callees f d

/-- Errors raised by the embedded code generator.  `panic` is CompilerPanic,
`stateAccessViolation` and `structureException` are the user-facing errors of
self_call.py, `keyError` is a Python KeyError on a dict lookup, and
`recursionLimit` stands for Python's RecursionError (the embedding's fuel
running out). -/
inductive CodegenError where
  | panic (msg : String)
  | stateAccessViolation (msg : String)
  | structureException (msg : String)
  | keyError (msg : String)
  | recursionLimit
deriving DecidableEq

/-- The per-function facts module.py reads off a FunctionDef's metadata:
name, visibility, role flags, payability, the resolved direct-callee names
(modelled from the spec, section 3: "a resolved call-graph edge set (names of
internal functions it directly calls)"), and the constructor frame size
`frame_info.mem_used`. -/
structure FunctionDef where
  name : String
  is_internal : Bool
  is_fallback : Bool
  is_payable : Bool
  is_constructor : Bool
  called_functions : List String
  mem_used : Nat
deriving DecidableEq

/-- The `lookup` dict of `_topsort`: find a function by name. -/
def lookupFn (functions : List FunctionDef) (n : String) : Option FunctionDef :=
  functions.find? (fun g => g.name == n)

/-- Resolved callee list of a FunctionDef, as `_topsort_helper` computes it
(`lookup[t.name] for t in f._metadata["type"].called_functions`); the
semantic layer guarantees every callee name resolves, so a missing name is
simply dropped here. -/
def calleeDefs (functions : List FunctionDef) (f : FunctionDef) : List FunctionDef :=
  f.called_functions.filterMap (lookupFn functions)

/-- `internal_functions` of `_runtime_ir` (module.py line 42). -/
def internalFunctionsOf (fns : List FunctionDef) : List FunctionDef :=
  fns.filter (fun f => f.is_internal)

/-- `external_functions` of `_runtime_ir` (module.py line 44). -/
def externalFunctionsOf (fns : List FunctionDef) : List FunctionDef :=
  fns.filter (fun f => !f.is_internal)

/-- `default_function` of `_runtime_ir` (module.py line 45). -/
def defaultFunctionOf (fns : List FunctionDef) : Option FunctionDef :=
  (externalFunctionsOf fns).find? (fun f => f.is_fallback)

/-- `regular_functions` of `_runtime_ir` (module.py line 48). -/
def regularFunctionsOf (fns : List FunctionDef) : List FunctionDef :=
  (externalFunctionsOf fns).filter (fun f => !f.is_fallback)

/-- `payables` of `_runtime_ir` (module.py line 49). -/
def payablesOf (fns : List FunctionDef) : List FunctionDef :=
  (regularFunctionsOf fns).filter (fun f => f.is_payable)

/-- `nonpayables` of `_runtime_ir` (module.py line 50). -/
def nonpayablesOf (fns : List FunctionDef) : List FunctionDef :=
  (regularFunctionsOf fns).filter (fun f => !f.is_payable)

/-- The name-keyed map of internal function IR (module.py lines 54-58),
as an insertion-ordered association list, mirroring a Python dict.  `genIR`
is the opaque per-function code generator collaborator
(`generate_ir_for_function`), whose second argument is the
"skip own callvalue check" flag. -/
def internalFunctionsMapOf (genIR : FunctionDef → Bool → IRnode)
    (fns : List FunctionDef) : List (String × IRnode) :=
  (internalFunctionsOf fns).map (fun f => (f.name, genIR f false))

/-- `default_is_nonpayable` (module.py line 70). -/
def defaultIsNonpayable (fns : List FunctionDef) : Bool :=
  match defaultFunctionOf fns with
  | none => true
  | some f => !f.is_payable

/-- `batch_payable_check` (module.py line 74); `skip_nonpayable_check`
(line 75) is the same boolean. -/
def batchPayableCheck (fns : List FunctionDef) : Bool :=
  !(nonpayablesOf fns).isEmpty && defaultIsNonpayable fns

/-- The combined callvalue assertion `["assert", ["iszero", "callvalue"]]`
(module.py line 84). -/
def assertValueZero : IRnode :=
  IRnode.simple (.str ("assert"))
    [IRnode.simple (.str ("iszero")) [IRnode.simple (.str ("callvalue")) []]]

/-- The children appended to `selector_section` (module.py lines 77-88):
payable functions first, then — under `batch_payable_check` — the combined
callvalue assertion, then the nonpayable functions generated with the
skip flag equal to `batch_payable_check`. -/
def dispatchBodyOf (genIR : FunctionDef → Bool → IRnode)
    (fns : List FunctionDef) : List IRnode :=
  ((payablesOf fns).map (fun f => genIR f false))
    ++ (if batchPayableCheck fns then [assertValueZero] else [])
    ++ ((nonpayablesOf fns).map (fun f => genIR f (batchPayableCheck fns)))

/-- The canonical default fallback `["revert", 0, 0]` annotated
"Default function" (module.py lines 95-97). -/
def fallbackRevert : IRnode :=
  IRnode.mk (.str ("revert")) [IRnode.simple (.num 0) [], IRnode.simple (.num 0) []]
    none none (some ("Default function")) false

/-- `fallback_ir` (module.py lines 90-97). -/
def fallbackIROf (genIR : FunctionDef → Bool → IRnode)
    (fns : List FunctionDef) : IRnode :=
  match defaultFunctionOf fns with
  | some d => genIR d (batchPayableCheck fns)
  | none => fallbackRevert

/-- `shr(224, ["calldataload", 0])` (module.py line 107; `shr` is the
codegen.core helper producing `["shr", bits, x]`). -/
def shrSelector : IRnode :=
  IRnode.simple (.str ("shr"))
    [IRnode.simple (.num 224) [],
     IRnode.simple (.str ("calldataload")) [IRnode.simple (.num 0) []]]

/-- Embedding of `_runtime_ir` (module.py lines 38-115): returns the runtime
IR tree and the internal-function map. -/
def _runtime_ir (genIR : FunctionDef → Bool → IRnode)
    (runtime_functions : List FunctionDef) : IRnode × List (String × IRnode) :=
  let imap := internalFunctionsMapOf genIR runtime_functions
  if (externalFunctionsOf runtime_functions).isEmpty then
    (IRnode.simple (.str ("seq")) (imap.map Prod.snd), imap)
  else
    (IRnode.simple (.str ("seq"))
      ([IRnode.simple (.str ("with"))
          [IRnode.simple (.str ("_calldata_method_id")) [],
           shrSelector,
           IRnode.simple (.str ("seq")) (dispatchBodyOf genIR runtime_functions)],
        IRnode.simple (.str ("goto")) [IRnode.simple (.str ("fallback")) []],
        IRnode.simple (.str ("label"))
          [IRnode.simple (.str ("fallback")) [],
           IRnode.simple (.str ("var_list")) [],
           fallbackIROf genIR runtime_functions]]
        ++ imap.map Prod.snd),
     imap)

/-- Embedding of `generate_ir_for_module` (module.py lines 120-169),
returning the deploy tree and the runtime tree.  The fuel is the termination
device of the embedded `_topsort` (see there).  The snapshot's undefined
names `all_sigs`/`local_sigs` are, per the spec's design notes, the
internally computed signature mapping wired consistently; the signature
table itself plays no role in the control flow modelled here. -/
def generate_ir_for_module (genIR : FunctionDef → Bool → IRnode) (fuel : Nat)
    (functions : List FunctionDef) (immutable_section_bytes : Nat) :
    Except CodegenError (IRnode × IRnode) :=
  match _topsort (calleeDefs functions) fuel functions with
  | none => .error .recursionLimit
  | some function_defs =>
    let runtime_functions := function_defs.filter (fun f => !f.is_constructor)
    let init_function := function_defs.find? (fun f => f.is_constructor)
    let rpair := _runtime_ir genIR runtime_functions
    match init_function with
    | some init =>
      let init_func_ir := genIR init false
      let deploy_instr := IRnode.simple (.str ("deploy"))
        [IRnode.simple (.num init.mem_used) [], rpair.1,
         IRnode.simple (.num immutable_section_bytes) []]
      match init.called_functions.mapM (fun n => rpair.2.lookup n) with
      | none => .error (.keyError ("internal function not found"))
      | some called_irs =>
        .ok (IRnode.simple (.str ("seq")) ([init_func_ir, deploy_instr] ++ called_irs),
             rpair.1)
    | none =>
      if immutable_section_bytes ≠ 0 then .error (.panic ("unreachable"))
      else
        .ok (IRnode.simple (.str ("seq"))
               [IRnode.simple (.str ("deploy"))
                 [IRnode.simple (.num 0) [], rpair.1, IRnode.simple (.num 0) []]],
             rpair.1)

/-- The facts `ir_for_self_call` reads off the resolved callee
ContractFunctionT (`func_t` / `sig`; the two names are wired to the same
object, as the spec's design notes direct for this snapshot): visibility,
mutability, return type, declared parameter types, frame start offset,
entry label, arity bounds, and the declared trailing default-value
expressions, pre-lowered by the expression collaborator. -/
structure FuncT where
  name : String
  is_internal : Bool
  is_modifying : Bool
  return_type : Option VyType
  arg_types : List VyType
  frame_start : Nat
  internal_function_label : String
  min_arg_count : Nat
  max_arg_count : Nat
  default_values : List IRnode
deriving DecidableEq

/-- The slice of the per-function Context that self_call.py touches: the
memory allocator watermark (behind `new_internal_variable`) and the
read-only-context flag (behind `is_constant()`). -/
structure Context where
  next_var : Nat
  is_constant : Bool
deriving DecidableEq

/-- Modelled from the spec: `context.new_internal_variable(typ)` allocates
a fresh buffer of the type's size at the current watermark and advances
the watermark. -/
def new_internal_variable (ctx : Context) (t : VyType) : Nat × Context :=
  (ctx.next_var, { ctx with next_var := ctx.next_var + typeSize t })

/-- Modelled from the spec: `make_setter dst src` is the opaque bulk-copy
collaborator of codegen.core; only its identity and position matter here,
so it is embedded as a tagged node with the two operands as children
(the source operand's evaluation happens inside this node). -/
def make_setter (dst src : IRnode) : IRnode :=
  IRnode.simple (.str ("setter")) [dst, src]

/-- Modelled from the spec: `_freshname` fingerprints the call expression's
source text for the evaluate-once guard. -/
def _freshname (s : String) : String := s

/-- Modelled from the spec: `eval_once_check` emits the non-duplicable
evaluate-once guard tagged with the fingerprint. -/
def eval_once_check (s : String) : IRnode :=
  IRnode.simple (.str ("unique_symbol")) [IRnode.simple (.str s) []]

/-- Modelled from the spec: `push_label_to_stack` pushes the return label's
address as an ordinary data value. -/
def push_label_to_stack (l : String) : IRnode :=
  IRnode.simple (.str ("symbol")) [IRnode.simple (.str l) []]

/-- `kw_vals` as `_align_kwargs` computes it (self_call.py lines 34-38):
`num_provided_kwargs = len(args_ir) - min_arg_count`,
`kwargs_needed = num_kwargs - num_provided_kwargs`, and the slice
`default_values[:kwargs_needed]` — i.e. the FIRST `kwargs_needed` default
expressions. -/
def kwValsFor (func_t : FuncT) (pos_args_ir : List IRnode) : List IRnode :=
  let num_provided_kwargs := pos_args_ir.length - func_t.min_arg_count
  let num_kwargs := func_t.max_arg_count - func_t.min_arg_count
  let kwargs_needed := num_kwargs - num_provided_kwargs
  func_t.default_values.take kwargs_needed

/-- Embedding of `_align_kwargs` (self_call.py lines 17-40): sanity-checks
visibility and arity (CompilerPanic "Unreachable" on failure), then returns
the callee and the compiler-filled default expressions.  The snapshot's
undefined names `args_ir`/`sig` are wired to `pos_args_ir`/`func_t` as the
spec's design notes direct. -/
def _align_kwargs (func_t : FuncT) (pos_args_ir : List IRnode) :
    Except CodegenError (FuncT × List IRnode) :=
  if func_t.is_internal = false then .error (.panic ("Unreachable"))
  else if ¬ (func_t.min_arg_count ≤ pos_args_ir.length ∧
             pos_args_ir.length ≤ func_t.max_arg_count) then
    .error (.panic ("Unreachable"))
  else .ok (func_t, kwValsFor func_t pos_args_ir)

/-- `args_ir = pos_args_ir + kw_args_ir` (self_call.py lines 63-65); the
default expressions are already lowered IR in this embedding, so the Expr
collaborator application is the identity. -/
def selfCallArgsIR (func_t : FuncT) (pos_args_ir : List IRnode) : List IRnode :=
  pos_args_ir ++ kwValsFor func_t pos_args_ir

/-- The result type recorded on an argument IR value, defaulting for the
(never-occurring) untyped case. -/
def typOfD (a : IRnode) : VyType :=
  match a.typOf with
  | some t => t
  | none => VyType.tuple []

/-- `args_tuple_t = TupleT([x.typ for x in args_ir])` (self_call.py
line 67). -/
def argsTupleTOf (func_t : FuncT) (pos_args_ir : List IRnode) : VyType :=
  VyType.tuple ((selfCallArgsIR func_t pos_args_ir).map typOfD)

/-- `args_as_tuple` (self_call.py line 68): the `multi` composite of all
argument values. -/
def argsAsTupleOf (func_t : FuncT) (pos_args_ir : List IRnode) : IRnode :=
  IRnode.mk (.str ("multi")) (selfCallArgsIR func_t pos_args_ir)
    (some (argsTupleTOf func_t pos_args_ir)) none none false

/-- `dst_tuple_t = TupleT([arg.typ for arg in sig.args])` (self_call.py
line 93). -/
def dstTupleTOf (func_t : FuncT) : VyType :=
  VyType.tuple func_t.arg_types

/-- `args_dst` (self_call.py line 94): the callee's fixed argument frame. -/
def argsDstOf (func_t : FuncT) : IRnode :=
  IRnode.mk (.num func_t.frame_start) [] (some (dstTupleTOf func_t))
    (some .memory) none false

/-- Memory taken by the return buffer allocation (zero when the callee
returns nothing). -/
def retBufAllocOf (func_t : FuncT) : Nat :=
  match func_t.return_type with
  | some t => typeSize t
  | none => 0

/-- `return_buffer` and the context after its allocation (self_call.py
lines 85-90). -/
def retBufOf (func_t : FuncT) (return_label : String) (ctx : Context) :
    Option IRnode × Context :=
  match func_t.return_type with
  | some t =>
    let alloc := new_internal_variable ctx t
    (some (IRnode.mk (.num alloc.1) [] none none
            (some (return_label ++ ("_return_buf"))) false),
     alloc.2)
  | none => (none, ctx)

/-- The temporary staging buffer node at a given offset (self_call.py
lines 103-105). -/
def tmpBufAt (func_t : FuncT) (ofs : Nat) : IRnode :=
  IRnode.mk (.num ofs) [] (some (dstTupleTOf func_t)) (some .memory) none false

/-- The staged two-step copy sequence of the hazard path (self_call.py
lines 100-111), with the temporary buffer freshly allocated at the
watermark that follows the return-buffer allocation. -/
def stagedCopyOf (func_t : FuncT) (pos_args_ir : List IRnode) (ctx : Context) : IRnode :=
  IRnode.simple (.str ("seq"))
    [make_setter (tmpBufAt func_t (ctx.next_var + retBufAllocOf func_t))
       (argsAsTupleOf func_t pos_args_ir),
     make_setter (argsDstOf func_t)
       (tmpBufAt func_t (ctx.next_var + retBufAllocOf func_t))]

/-- `copy_args` and the context after the optional staging allocation
(self_call.py lines 96-114). -/
def copyArgsOf (func_t : FuncT) (pos_args_ir : List IRnode) (ctx1 : Context) :
    IRnode × Context :=
  if contains_self_call (argsAsTupleOf func_t pos_args_ir) then
    let alloc := new_internal_variable ctx1 (dstTupleTOf func_t)
    let tmp_args_buf := tmpBufAt func_t alloc.1
    (IRnode.simple (.str ("seq"))
      [make_setter tmp_args_buf (argsAsTupleOf func_t pos_args_ir),
       make_setter (argsDstOf func_t) tmp_args_buf],
     alloc.2)
  else
    (make_setter (argsDstOf func_t) (argsAsTupleOf func_t pos_args_ir), ctx1)

/-- `goto_op` (self_call.py lines 116-121): jump to the callee entry label,
passing the return buffer (when present) and the pushed return label. -/
def gotoOpOf (func_t : FuncT) (rb : Option IRnode) (return_label : String) : IRnode :=
  IRnode.simple (.str ("goto"))
    ([IRnode.simple (.str func_t.internal_function_label) []]
      ++ rb.toList ++ [push_label_to_stack return_label])

/-- The no-op landing point `["label", return_label, ["var_list"], "pass"]`
(self_call.py line 125). -/
def returnLabelNode (return_label : String) : IRnode :=
  IRnode.simple (.str ("label"))
    [IRnode.simple (.str return_label) [],
     IRnode.simple (.str ("var_list")) [],
     IRnode.simple (.str ("pass")) []]

/-- `call_sequence` (self_call.py lines 123-128). -/
def callSequenceOf (src : String) (copy_args goto_op : IRnode)
    (return_label : String) (rb : Option IRnode) : List IRnode :=
  [eval_once_check (_freshname src), copy_args, goto_op, returnLabelNode return_label]
    ++ rb.toList

/-- The success value of `ir_for_self_call`: the lowered IR tree (marked
`is_self_call`, line 137), the context after allocations, and the advanced
label counter. -/
def selfCallOk (func_t : FuncT) (pos_args_ir : List IRnode) (src : String)
    (ctx : Context) (label_counter : Nat) : IRnode × Context × Nat :=
  let lab := _generate_label (func_t.internal_function_label ++ ("_call")) label_counter
  let rbp := retBufOf func_t lab.1 ctx
  let cap := copyArgsOf func_t pos_args_ir rbp.2
  let goto_op := gotoOpOf func_t rbp.1 lab.1
  (IRnode.mk (.str ("seq")) (callSequenceOf src cap.1 goto_op lab.1 rbp.1)
     func_t.return_type (some .memory) (some src) true,
   cap.2, lab.2)

/-- Embedding of `ir_for_self_call` (self_call.py lines 42-138).  Inputs:
the resolved callee `func_t`, the positional argument IR values (the Expr
collaborator's outputs for `call_expr.args`), the call expression's source
text, the context, and the module-global label counter as explicit state.
The snapshot's debug prints are omitted, and its undefined names are wired
as the spec's design notes direct (`sig` is `func_t`). -/
def ir_for_self_call (func_t : FuncT) (pos_args_ir : List IRnode) (src : String)
    (ctx : Context) (label_counter : Nat) :
    Except CodegenError (IRnode × Context × Nat) :=
  match _align_kwargs func_t pos_args_ir with
  | .error e => .error e
  | .ok _ =>
    if ctx.is_constant && func_t.is_modifying then
      .error (.stateAccessViolation ("May not call state modifying function within constant context"))
    else if func_t.is_internal = false then
      .error (.structureException ("Cannot call external functions via self"))
    else
      .ok (selfCallOk func_t pos_args_ir src ctx label_counter)

/-- A concrete opaque per-function code generator for the closed examples:
a "fnbody" node holding the function's name and the skip-check flag it was
invoked with. -/
def genIRex : FunctionDef → Bool → IRnode :=
  fun f skip =>
    IRnode.simple (.str ("fnbody"))
      [IRnode.simple (.str f.name) [],
       IRnode.simple (.str (if skip then ("skip") else ("noskip"))) []]

/-- Example: an external payable regular function. -/
def payF : FunctionDef :=
  { name := ("pay"), is_internal := false, is_fallback := false,
    is_payable := true, is_constructor := false, called_functions := [],
    mem_used := 0 }

/-- Example: an external nonpayable regular function. -/
def nonpayF : FunctionDef :=
  { name := ("send"), is_internal := false, is_fallback := false,
    is_payable := false, is_constructor := false, called_functions := [],
    mem_used := 0 }

/-- Example: an internal function `b` with no callees. -/
def exB : FunctionDef :=
  { name := ("b"), is_internal := true, is_fallback := false,
    is_payable := false, is_constructor := false, called_functions := [],
    mem_used := 0 }

/-- Example: an internal function `a` that calls `b`. -/
def exA : FunctionDef :=
  { name := ("a"), is_internal := true, is_fallback := false,
    is_payable := false, is_constructor := false, called_functions := [("b")],
    mem_used := 0 }

/-- Example: a constructor that calls `a` (and hence, transitively, `b`). -/
def exInit : FunctionDef :=
  { name := ("init"), is_internal := false, is_fallback := false,
    is_payable := false, is_constructor := true, called_functions := [("a")],
    mem_used := 64 }

/-- Example module for the deploy assembler: constructor plus the internal
chain `a` → `b`. -/
def exFnsDeploy : List FunctionDef := [exInit, exA, exB]

/-- Example: a directly self-recursive function. -/
def selfRec : FunctionDef :=
  { name := ("a"), is_internal := true, is_fallback := false,
    is_payable := false, is_constructor := false, called_functions := [("a")],
    mem_used := 0 }

/-- Example: an internal, non-modifying callee with no parameters and no
return value. -/
def exCallee0 : FuncT :=
  { name := ("g"), is_internal := true, is_modifying := false,
    return_type := none, arg_types := [], frame_start := 64,
    internal_function_label := ("internal_g"), min_arg_count := 0,
    max_arg_count := 0, default_values := [] }

/-- The IR tree `ir_for_self_call` produces for a call to `exCallee0` at
label-counter 0 (used by the closed examples). -/
def exOut0 : IRnode :=
  IRnode.mk (.str ("seq"))
    [eval_once_check ("p"),
     make_setter (argsDstOf exCallee0) (argsAsTupleOf exCallee0 []),
     gotoOpOf exCallee0 none ("label1"),
     returnLabelNode ("label1")]
    none (some .memory) (some ("p")) true

/-- Example: an internal callee taking one argument (whose recorded type is
the empty tuple, matching an argument value that carries no type). -/
def exCallHaz : FuncT :=
  { name := ("h"), is_internal := true, is_modifying := false,
    return_type := none, arg_types := [VyType.tuple []], frame_start := 512,
    internal_function_label := ("internal_h"), min_arg_count := 1,
    max_arg_count := 1, default_values := [] }

/-- The IR tree `ir_for_self_call` produces for a call to `exCallHaz` whose
single argument is `exOut0` (a previously lowered self-call), at
label-counter 5: the staged temporary-buffer path. -/
def exOutHaz : IRnode :=
  IRnode.mk (.str ("seq"))
    [eval_once_check ("s"),
     stagedCopyOf exCallHaz [exOut0] { next_var := 256, is_constant := false },
     gotoOpOf exCallHaz none ("label6"),
     returnLabelNode ("label6")]
    none (some .memory) (some ("s")) true

/-- Example default-value expressions and positional arguments for the
keyword-alignment check. -/
def dv1 : IRnode := IRnode.simple (.str ("d1")) []

/-- Second example default-value expression. -/
def dv2 : IRnode := IRnode.simple (.str ("d2")) []

/-- First example positional argument. -/
def pa1 : IRnode := IRnode.simple (.str ("p1")) []

/-- Second example positional argument. -/
def pa2 : IRnode := IRnode.simple (.str ("p2")) []

/-- Example: an internal callee with one required parameter and two trailing
default-valued parameters `[dv1, dv2]`. -/
def exKw : FuncT :=
  { name := ("k"), is_internal := true, is_modifying := false,
    return_type := none, arg_types := [.base 32, .base 32, .base 32],
    frame_start := 0, internal_function_label := ("internal_k"),
    min_arg_count := 1, max_arg_count := 3, default_values := [dv1, dv2] }

instance {ε α : Type} [DecidableEq ε] [DecidableEq α] : DecidableEq (Except ε α) :=
  fun a b =>
    match a, b with
    | .ok x, .ok y =>
      if h : x = y then .isTrue (by rw [h])
      else .isFalse (by intro hc; cases hc; exact h rfl)
    | .error x, .error y =>
      if h : x = y then .isTrue (by rw [h])
      else .isFalse (by intro hc; cases hc; exact h rfl)
    | .ok _, .error _ => .isFalse (by intro hc; cases hc)
    | .error _, .ok _ => .isFalse (by intro hc; cases hc)
theorem containsListSelfCall_eq_any (l : List IRnode) :
    containsListSelfCall l = l.any contains_self_call := by
  induction l with
  | nil => rfl
  | cons x xs ih => simp [containsListSelfCall, ih, List.any_cons]

theorem contains_self_call_mk (v : IRValue) (args : List IRnode) (ty : Option VyType)
    (loc : Option Location) (an : Option String) (fl : Bool) :
    contains_self_call (IRnode.mk v args ty loc an fl) = (fl || args.any contains_self_call) := by
  simp [contains_self_call, containsListSelfCall_eq_any]

mutual

theorem occurs_contains (t : IRnode) (ht : t.selfCallFlag = true) :
    ∀ a : IRnode, occursIn t a = true → contains_self_call a = true
  | .mk v args ty loc an fl => by
    intro h
    rw [occursIn] at h
    rcases Bool.or_eq_true_iff.mp h with h1 | h2
    · have he : IRnode.mk v args ty loc an fl = t := by
        exact eq_of_beq h1
      rw [he]
      cases t with
      | mk v2 a2 t2 l2 n2 s2 =>
        rw [IRnode.selfCallFlag] at ht
        rw [contains_self_call, ht, Bool.true_or]
    · rw [contains_self_call, occursList_contains t ht args h2, Bool.or_true]

theorem occursList_contains (t : IRnode) (ht : t.selfCallFlag = true) :
    ∀ l : List IRnode, occursInList t l = true → containsListSelfCall l = true
  | [] => by
    intro h
    simp [occursInList] at h
  | x :: xs => by
    intro h
    rw [occursInList] at h
    rcases Bool.or_eq_true_iff.mp h with h1 | h2
    · rw [containsListSelfCall, occurs_contains t ht x h1, Bool.true_or]
    · rw [containsListSelfCall, occursList_contains t ht xs h2, Bool.or_true]

end

theorem natDecimalAux_irrel : ∀ f1 f2 n, n < f1 → n < f2 →
    natDecimalAux f1 n = natDecimalAux f2 n := by
  intro f1
  induction f1 with
  | zero => intro f2 n h1; omega
  | succ k ih =>
    intro f2 n h1 h2
    match f2, h2 with
    | m + 1, h2 =>
      rw [natDecimalAux, natDecimalAux]
      by_cases hn : n < 10
      · rw [if_pos hn, if_pos hn]
      · rw [if_neg hn, if_neg hn]
        have hdiv : n / 10 < n := Nat.div_lt_self (by omega) (by omega)
        rw [ih m (n / 10) (by omega) (by omega)]

theorem natDecimal_unfold (n : Nat) :
    natDecimal n = if n < 10 then [digitChar n]
                   else natDecimal (n / 10) ++ [digitChar (n % 10)] := by
  rw [natDecimal, natDecimalAux]
  by_cases hn : n < 10
  · rw [if_pos hn, if_pos hn]
  · rw [if_neg hn, if_neg hn, natDecimal]
    have hdiv : n / 10 < n := Nat.div_lt_self (by omega) (by omega)
    rw [natDecimalAux_irrel n (n / 10 + 1) (n / 10) (by omega) (by omega)]

theorem natDecimal_length_pos (n : Nat) : 0 < (natDecimal n).length := by
  rw [natDecimal_unfold]
  by_cases hn : n < 10
  · rw [if_pos hn]; simp
  · rw [if_neg hn]; simp

theorem digitChar_inj_fin : ∀ m k : Fin 10, digitChar m.val = digitChar k.val → m = k := by
  decide

theorem digitChar_inj (m k : Nat) (hm : m < 10) (hk : k < 10)
    (h : digitChar m = digitChar k) : m = k := by
  have := digitChar_inj_fin ⟨m, hm⟩ ⟨k, hk⟩ h
  exact congrArg Fin.val this

theorem natDecimal_inj : ∀ m n : Nat, natDecimal m = natDecimal n → m = n := by
  intro m
  induction m using Nat.strong_induction_on with
  | _ m ih =>
    intro n h
    rw [natDecimal_unfold m, natDecimal_unfold n] at h
    by_cases hm : m < 10
    · by_cases hn : n < 10
      · rw [if_pos hm, if_pos hn] at h
        exact digitChar_inj m n hm hn (List.singleton_injective h)
      · rw [if_pos hm, if_neg hn] at h
        have hp := natDecimal_length_pos (n / 10)
        have hlen := congrArg List.length h
        simp only [List.length_append, List.length_cons, List.length_nil] at hlen
        omega
    · by_cases hn : n < 10
      · rw [if_neg hm, if_pos hn] at h
        have hp := natDecimal_length_pos (m / 10)
        have hlen := congrArg List.length h
        simp only [List.length_append, List.length_cons, List.length_nil] at hlen
        omega
      · rw [if_neg hm, if_neg hn] at h
        have hlen : [digitChar (m % 10)].length = [digitChar (n % 10)].length := rfl
        have hparts := List.append_inj' h hlen
        have hdivs : m / 10 = n / 10 :=
          ih (m / 10) (Nat.div_lt_self (by omega) (by omega)) (n / 10) hparts.1
        have hmod : m % 10 = n % 10 :=
          digitChar_inj _ _ (Nat.mod_lt _ (by omega)) (Nat.mod_lt _ (by omega))
            (List.singleton_injective hparts.2)
        omega

theorem natStr_inj (m n : Nat) (h : natStr m = natStr n) : m = n := by
  apply natDecimal_inj
  rw [natStr, natStr, String.ext_iff] at h
  exact h

theorem generate_label_inj (n1 n2 : String) (c1 c2 : Nat) (h : c1 ≠ c2) :
    (_generate_label n1 c1).1 ≠ (_generate_label n2 c2).1 := by
  rw [_generate_label, _generate_label]
  intro hc
  have hdata := String.ext_iff.mp hc
  rw [String.data_append, String.data_append] at hdata
  have := List.append_cancel_left hdata
  have : natStr (c1 + 1) = natStr (c2 + 1) := String.ext this
  exact h (by have := natStr_inj _ _ this; omega)

theorem topsort_helper_mono {α : Type} (callees : α → List α) :
    ∀ fuel (l r : List α), _topsort_helper callees fuel l = some r →
      _topsort_helper callees (fuel + 1) l = some r := by
  intro fuel
  induction fuel with
  | zero => intro l r hr; simp [_topsort_helper] at hr
  | succ k ih =>
    intro l r hr
    match l with
    | [] => simpa [_topsort_helper] using hr
    | f :: fs =>
      rw [_topsort_helper] at hr
      cases h1 : _topsort_helper callees k (callees f) with
      | none => rw [h1] at hr; simp at hr
      | some a =>
        rw [h1] at hr
        simp only at hr
        cases h2 : _topsort_helper callees k fs with
        | none => rw [h2] at hr; simp at hr
        | some b =>
          rw [h2] at hr
          simp only at hr
          rw [_topsort_helper, ih _ _ h1, ih _ _ h2]
          exact hr

theorem topsort_helper_le_mono {α : Type} (callees : α → List α)
    (f1 f2 : Nat) (hle : f1 ≤ f2) (l r : List α)
    (hr : _topsort_helper callees f1 l = some r) :
    _topsort_helper callees f2 l = some r := by
  induction f2 with
  | zero =>
    have : f1 = 0 := by omega
    rw [this] at hr
    simp [_topsort_helper] at hr
  | succ k ih =>
    by_cases h : f1 = k + 1
    · rw [h] at hr; exact hr
    · exact topsort_helper_mono callees k l r (ih (by omega))

theorem topsort_helper_mem {α : Type} (callees : α → List α) :
    ∀ fuel (l r : List α), _topsort_helper callees fuel l = some r →
      ∀ x ∈ l, x ∈ r := by
  intro fuel
  induction fuel with
  | zero => intro l r hr; simp [_topsort_helper] at hr
  | succ k ih =>
    intro l r hr x hx
    cases l with
    | nil => cases hx
    | cons f fs =>
      rw [_topsort_helper] at hr
      cases h1 : _topsort_helper callees k (callees f) with
      | none => rw [h1] at hr; simp at hr
      | some a =>
        rw [h1] at hr
        simp only at hr
        cases h2 : _topsort_helper callees k fs with
        | none => rw [h2] at hr; simp at hr
        | some b =>
          rw [h2] at hr
          simp only at hr
          cases hr
          cases hx with
          | head => simp
          | tail _ hx2 =>
            exact List.mem_append.mpr (Or.inr (List.mem_cons_of_mem _ (ih fs b h2 x hx2)))

theorem topsort_helper_closed {α : Type} (callees : α → List α) (S : List α)
    (hcl : ∀ g c, c ∈ callees g → c ∈ S) :
    ∀ fuel (l r : List α), (∀ x ∈ l, x ∈ S) →
      _topsort_helper callees fuel l = some r → ∀ x ∈ r, x ∈ S := by
  intro fuel
  induction fuel with
  | zero => intro l r _ hr; simp [_topsort_helper] at hr
  | succ k ih =>
    intro l r hl hr x hx
    cases l with
    | nil =>
      simp [_topsort_helper] at hr
      subst hr
      cases hx
    | cons f fs =>
      rw [_topsort_helper] at hr
      cases h1 : _topsort_helper callees k (callees f) with
      | none => rw [h1] at hr; simp at hr
      | some a =>
        rw [h1] at hr
        simp only at hr
        cases h2 : _topsort_helper callees k fs with
        | none => rw [h2] at hr; simp at hr
        | some b =>
          rw [h2] at hr
          simp only at hr
          cases hr
          rcases List.mem_append.mp hx with hxa | hxb
          · exact ih (callees f) a (fun y hy => hcl f y hy) h1 x hxa
          · cases hxb with
            | head => exact hl _ (List.mem_cons_self _ _)
            | tail _ hx2 =>
              exact ih fs b (fun y hy => hl y (List.mem_cons_of_mem f hy)) h2 x hx2

theorem indexOf_le_of_getElem? {α : Type} [DecidableEq α] :
    ∀ (l : List α) (j : Nat) (a : α), l[j]? = some a → l.indexOf a ≤ j := by
  intro l
  induction l with
  | nil => intro j a h; simp at h
  | cons x xs ih =>
    intro j a h
    cases j with
    | zero =>
      rw [List.getElem?_cons_zero] at h
      cases h
      simp [List.indexOf_cons_self]
    | succ k =>
      rw [List.getElem?_cons_succ] at h
      by_cases hxa : x = a
      · rw [hxa, List.indexOf_cons_self]; omega
      · rw [List.indexOf_cons_ne xs hxa]
        have := ih k a h
        omega

theorem getElem?_indexOf_self {α : Type} [DecidableEq α] (l : List α) (a : α)
    (h : a ∈ l) : l[l.indexOf a]? = some a := by
  rw [List.getElem?_eq_getElem (List.indexOf_lt_length.mpr h)]
  rw [List.getElem_indexOf]

theorem topsort_helper_order {α : Type} (callees : α → List α) :
    ∀ fuel (l r : List α), _topsort_helper callees fuel l = some r →
      ∀ (i : Nat) (f : α), r[i]? = some f → ∀ c ∈ callees f,
        ∃ j : Nat, j < i ∧ r[j]? = some c := by
  intro fuel
  induction fuel with
  | zero => intro l r hr; simp [_topsort_helper] at hr
  | succ k ih =>
    intro l r hr i f hi c hc
    cases l with
    | nil =>
      simp [_topsort_helper] at hr
      subst hr
      simp at hi
    | cons f0 fs =>
      rw [_topsort_helper] at hr
      cases h1 : _topsort_helper callees k (callees f0) with
      | none => rw [h1] at hr; simp at hr
      | some a =>
        rw [h1] at hr
        simp only at hr
        cases h2 : _topsort_helper callees k fs with
        | none => rw [h2] at hr; simp at hr
        | some b =>
          rw [h2] at hr
          simp only at hr
          cases hr
          rcases Nat.lt_trichotomy i a.length with hlt | heq | hgt
          · rw [List.getElem?_append_left hlt] at hi
            obtain ⟨j, hj, hja⟩ := ih (callees f0) a h1 i f hi c hc
            exact ⟨j, hj, by rw [List.getElem?_append_left (by omega)]; exact hja⟩
          · subst heq
            rw [List.getElem?_append_right (le_refl _)] at hi
            simp at hi
            subst hi
            have hca : c ∈ a := topsort_helper_mem callees k (callees f0) a h1 c hc
            rcases List.getElem_of_mem hca with ⟨j, hj, hje⟩
            refine ⟨j, hj, ?_⟩
            rw [List.getElem?_append_left hj, List.getElem?_eq_getElem hj, hje]
          · rw [List.getElem?_append_right (by omega)] at hi
            cases hm : i - a.length with
            | zero => omega
            | succ m =>
              rw [hm, List.getElem?_cons_succ] at hi
              obtain ⟨j, hj, hjb⟩ := ih fs b h2 m f hi c hc
              refine ⟨a.length + 1 + j, by omega, ?_⟩
              rw [List.getElem?_append_right (by omega)]
              have harith : a.length + 1 + j - a.length = j + 1 := by omega
              rw [harith, List.getElem?_cons_succ]
              exact hjb

theorem topsort_helper_callee_lt {α : Type} [DecidableEq α] (callees : α → List α)
    (fuel : Nat) (l r : List α) (hr : _topsort_helper callees fuel l = some r)
    (f c : α) (hf : f ∈ r) (hc : c ∈ callees f) :
    c ∈ r ∧ r.indexOf c < r.indexOf f := by
  have hif : r[r.indexOf f]? = some f := getElem?_indexOf_self r f hf
  obtain ⟨j, hj, hjc⟩ := topsort_helper_order callees fuel l r hr (r.indexOf f) f hif c hc
  have hle : r.indexOf c ≤ j := indexOf_le_of_getElem? r j c hjc
  have hflen : r.indexOf f < r.length := List.indexOf_lt_length.mpr hf
  have hclen : r.indexOf c < r.length := by omega
  exact ⟨List.indexOf_lt_length.mp hclen, by omega⟩

theorem rank_le_fold {α : Type} (rank : α → Nat) :
    ∀ (l : List α) (f : α), f ∈ l → rank f ≤ (l.map rank).foldr max 0 := by
  intro l
  induction l with
  | nil => intro f hf; cases hf
  | cons x xs ih =>
    intro f hf
    cases hf with
    | head => simp only [List.map_cons, List.foldr_cons]; omega
    | tail _ hf2 =>
      have := ih f hf2
      simp only [List.map_cons, List.foldr_cons]
      omega

theorem topsort_helper_exists {α : Type} (callees : α → List α) (rank : α → Nat)
    (hrank : ∀ g c, c ∈ callees g → rank c < rank g) :
    ∀ R (l : List α), (∀ f ∈ l, rank f < R) →
      ∃ fuel r, _topsort_helper callees fuel l = some r := by
  intro R
  induction R using Nat.strong_induction_on with
  | _ R ihR =>
    intro l
    induction l with
    | nil => intro _; exact ⟨1, [], rfl⟩
    | cons f fs ihl =>
      intro hb
      obtain ⟨fl1, a, ha⟩ :=
        ihR (rank f) (hb f (List.mem_cons_self f fs)) (callees f)
          (fun c hc => hrank f c hc)
      obtain ⟨fl2, b, hbb⟩ := ihl (fun g hg => hb g (List.mem_cons_of_mem f hg))
      refine ⟨max fl1 fl2 + 1, a ++ f :: b, ?_⟩
      rw [_topsort_helper]
      rw [topsort_helper_le_mono callees fl1 (max fl1 fl2) (le_max_left _ _) _ _ ha]
      rw [topsort_helper_le_mono callees fl2 (max fl1 fl2) (le_max_right _ _) _ _ hbb]

theorem mem_dedupFirstAux {α : Type} [DecidableEq α] :
    ∀ (l seen : List α) (x : α), x ∈ dedupFirstAux seen l ↔ (x ∈ l ∧ x ∉ seen) := by
  intro l
  induction l with
  | nil => intro seen x; simp [dedupFirstAux]
  | cons y ys ih =>
    intro seen x
    by_cases hy : y ∈ seen
    · rw [dedupFirstAux, if_pos hy, ih]
      constructor
      · rintro ⟨h1, h2⟩; exact ⟨List.mem_cons_of_mem y h1, h2⟩
      · rintro ⟨h1, h2⟩
        cases h1 with
        | head => exact absurd hy h2
        | tail _ h3 => exact ⟨h3, h2⟩
    · rw [dedupFirstAux, if_neg hy]
      constructor
      · intro h
        cases h with
        | head => exact ⟨List.mem_cons_self _ _, hy⟩
        | tail _ h3 =>
          rcases (ih (y :: seen) x).mp h3 with ⟨h4, h5⟩
          exact ⟨List.mem_cons_of_mem y h4,
                 fun hs => h5 (List.mem_cons_of_mem y hs)⟩
      · rintro ⟨h1, h2⟩
        by_cases hxy : x = y
        · rw [hxy]; exact List.mem_cons_self _ _
        · cases h1 with
          | head => exact absurd rfl hxy
          | tail _ h3 =>
            refine List.mem_cons_of_mem y ((ih (y :: seen) x).mpr ⟨h3, ?_⟩)
            intro hs
            cases hs with
            | head => exact hxy rfl
            | tail _ h4 => exact h2 h4

theorem nodup_dedupFirstAux {α : Type} [DecidableEq α] :
    ∀ (l seen : List α), (dedupFirstAux seen l).Nodup := by
  intro l
  induction l with
  | nil => intro seen; exact List.nodup_nil
  | cons y ys ih =>
    intro seen
    by_cases hy : y ∈ seen
    · rw [dedupFirstAux, if_pos hy]; exact ih seen
    · rw [dedupFirstAux, if_neg hy]
      refine List.Nodup.cons ?_ (ih (y :: seen))
      intro hmem
      have := (mem_dedupFirstAux ys (y :: seen) y).mp hmem
      exact this.2 (List.mem_cons_self _ _)

theorem dedupFirstAux_indexOf_lt {α : Type} [DecidableEq α] :
    ∀ (l seen : List α) (c f : α), c ∉ seen → f ∉ seen → c ∈ l → f ∈ l →
      l.indexOf c < l.indexOf f →
      (dedupFirstAux seen l).indexOf c < (dedupFirstAux seen l).indexOf f := by
  intro l
  induction l with
  | nil => intro seen c f _ _ hc; cases hc
  | cons y ys ih =>
    intro seen c f hcs hfs hc hf hlt
    by_cases hy : y ∈ seen
    · have hcy : c ≠ y := fun h => hcs (h ▸ hy)
      have hfy : f ≠ y := fun h => hfs (h ▸ hy)
      rw [dedupFirstAux, if_pos hy]
      have hcys : c ∈ ys := by
        cases hc with
        | head => exact absurd rfl hcy
        | tail _ h => exact h
      have hfys : f ∈ ys := by
        cases hf with
        | head => exact absurd rfl hfy
        | tail _ h => exact h
      have hlt2 : ys.indexOf c < ys.indexOf f := by
        rw [List.indexOf_cons_ne ys (fun h => hcy h.symm),
            List.indexOf_cons_ne ys (fun h => hfy h.symm)] at hlt
        omega
      exact ih seen c f hcs hfs hcys hfys hlt2
    · rw [dedupFirstAux, if_neg hy]
      by_cases hcy : c = y
      · subst hcy
        rw [List.indexOf_cons_self]
        have hfc : f ≠ c := by
          intro h
          rw [h, List.indexOf_cons_self] at hlt
          omega
        have hfys : f ∈ ys := by
          cases hf with
          | head => exact absurd rfl hfc
          | tail _ h => exact h
        have hfmem : f ∈ dedupFirstAux (c :: seen) ys := by
          refine (mem_dedupFirstAux ys (c :: seen) f).mpr ⟨hfys, ?_⟩
          intro h
          cases h with
          | head => exact hfc rfl
          | tail _ h2 => exact hfs h2
        rw [List.indexOf_cons_ne _ (fun h => hfc h.symm)]
        omega
      · have hfy : f ≠ y := by
          intro h
          rw [h, List.indexOf_cons_self] at hlt
          rw [List.indexOf_cons_ne ys (fun h2 => hcy h2.symm)] at hlt
          omega
        have hcys : c ∈ ys := by
          cases hc with
          | head => exact absurd rfl hcy
          | tail _ h => exact h
        have hfys : f ∈ ys := by
          cases hf with
          | head => exact absurd rfl hfy
          | tail _ h => exact h
        have hlt2 : ys.indexOf c < ys.indexOf f := by
          rw [List.indexOf_cons_ne ys (fun h => hcy h.symm),
              List.indexOf_cons_ne ys (fun h => hfy h.symm)] at hlt
          omega
        have hrec := ih (y :: seen) c f
          (fun h => by cases h with
            | head => exact hcy rfl
            | tail _ h2 => exact hcs h2)
          (fun h => by cases h with
            | head => exact hfy rfl
            | tail _ h2 => exact hfs h2)
          hcys hfys hlt2
        rw [List.indexOf_cons_ne _ (fun h => hcy h.symm),
            List.indexOf_cons_ne _ (fun h => hfy h.symm)]
        omega

theorem mem_dedupFirst {α : Type} [DecidableEq α] (l : List α) (x : α) :
    x ∈ dedupFirst l ↔ x ∈ l := by
  rw [dedupFirst, mem_dedupFirstAux]
  simp

theorem topsort_helper_self_loop {α : Type} (g : α → List α) (x : α)
    (hx : g x = [x]) : ∀ fuel, _topsort_helper g fuel [x] = none := by
  intro fuel
  induction fuel with
  | zero => rfl
  | succ k ih => rw [_topsort_helper, hx, ih]

/-- C4: the claim says a cyclic call graph is rejected with a user-facing
cyclic-call-graph error and never causes unbounded recursion.  The source
`_topsort_helper` has no cycle detection at all: on the one-function module
whose function calls itself, no recursion depth whatsoever suffices (the
recursion is unbounded; in Python it aborts with RecursionError), and the
module generator fails with the recursion-limit crash, not a user-facing
structural error. -/
theorem topsort_cycle_unbounded_recursion :
    (∀ fuel, _topsort_helper (fun _ : String => [("a")]) fuel [("a")] = none) ∧
    (∀ fuel, generate_ir_for_module genIRex fuel [selfRec] 0
      = .error CodegenError.recursionLimit) := by
  constructor
  · exact topsort_helper_self_loop (fun _ : String => [("a")]) ("a") rfl
  · intro fuel
    have h := topsort_helper_self_loop (calleeDefs [selfRec]) selfRec (by decide) fuel
    simp [generate_ir_for_module, _topsort, h]

/-- C9: the claim says the missing trailing parameters are filled from the
default-value expressions of exactly the last `max_allowed - n` parameters.
The source slices `default_values[:kwargs_needed]`, i.e. the FIRST
`kwargs_needed` defaults: for a callee with bounds [1, 3] and defaults
`[dv1, dv2]`, a call with two positional arguments gets `[dv1]` where the
claim requires `[dv2]`. -/
theorem align_kwargs_takes_leading_defaults :
    _align_kwargs exKw [pa1, pa2] = .ok (exKw, [dv1]) ∧
    exKw.default_values.drop (([pa1, pa2] : List IRnode).length - exKw.min_arg_count)
      = [dv2] ∧
    ([dv1] : List IRnode) ≠ [dv2] := by
  decide

/-- C5 counterexample: the claim says each returned label is formed from the
human-traceable prefix passed in; the source ignores the `name` argument and
returns "label" followed by the counter, so the label produced for the
passed-in text "foo_call" does not begin with it. -/
theorem generate_label_ignores_name :
    (_generate_label ("foo_call") 0).1 = ("label1") ∧
    (_generate_label ("foo_call") 0).1.data.take (("foo_call").data.length)
      ≠ ("foo_call").data := by
  decide

/-- C5 (amended): every label is the fixed text "label" followed by the
decimal rendering of the incremented counter (the `name` argument is
ignored), the counter strictly increases with each allocation, and labels
allocated at distinct counter states are distinct. -/
theorem generate_label_unique_monotone :
    (∀ nm c, _generate_label nm c = (("label" ++ natStr (c + 1)), c + 1)) ∧
    (∀ n1 n2 c1 c2, c1 ≠ c2 →
      (_generate_label n1 c1).1 ≠ (_generate_label n2 c2).1) :=
  ⟨fun _ _ => rfl, generate_label_inj⟩

theorem generate_label_unique_monotone_witness :
    (_generate_label ("foo_call") 0).1 ≠ (_generate_label ("foo_call") 1).1 :=
  generate_label_unique_monotone.2 ("foo_call") ("foo_call") 0 1 (by decide)

/-- C7: the claim (and the spec) say the Deploy Assembler appends the IR
bodies of every internal function the constructor TRANSITIVELY calls.  The
source loops only over `init_function._metadata["type"].called_functions`,
the direct callee edge set: for a constructor calling `a` where `a` calls
`b`, the deploy tree holds exactly the constructor IR, the deploy
instruction and `a`'s body — `b` is transitively reachable from deploy-time
execution but its body (and label) is absent from the deploy-time region. -/
theorem deploy_omits_transitive_callees :
    (generate_ir_for_module genIRex 10 exFnsDeploy 32).toOption.map
        (fun p => p.1.children.length) = some 3 ∧
    (generate_ir_for_module genIRex 10 exFnsDeploy 32).toOption.map
        (fun p => p.1.children[2]?) = some (some (genIRex exA false)) ∧
    (generate_ir_for_module genIRex 10 exFnsDeploy 32).toOption.map
        (fun p => p.1.children.contains (genIRex exB false)) = some false ∧
    Reaches (calleeDefs exFnsDeploy) exInit exB := by
  refine ⟨by decide, by decide, by decide, ?_⟩
  exact @Reaches.step FunctionDef (calleeDefs exFnsDeploy) exInit exA exB (by decide)
    (@Reaches.direct FunctionDef (calleeDefs exFnsDeploy) exA exB (by decide))

theorem calleeDefs_mem (fns : List FunctionDef) (g c : FunctionDef)
    (hc : c ∈ calleeDefs fns g) : c ∈ fns := by
  rw [calleeDefs] at hc
  rcases List.mem_filterMap.mp hc with ⟨n, _, hfind⟩
  exact List.mem_of_find?_eq_some hfind

theorem topsort_subset {α : Type} [DecidableEq α] (callees : α → List α)
    (fuel : Nat) (functions order : List α)
    (hcl : ∀ g c, c ∈ callees g → c ∈ functions)
    (h : _topsort callees fuel functions = some order) :
    ∀ x ∈ order, x ∈ functions := by
  rw [_topsort] at h
  cases hr : _topsort_helper callees fuel functions with
  | none => rw [hr] at h; simp at h
  | some r =>
    rw [hr] at h
    simp only [Option.map_some'] at h
    cases h
    intro x hx
    exact topsort_helper_closed callees functions hcl fuel functions r
      (fun y hy => hy) hr x ((mem_dedupFirst r x).mp hx)

/-- C8: a module without a constructor panics on nonzero immutables length,
and otherwise wraps the runtime tree in a deploy instruction with memory
offset 0 and padding 0. -/
theorem module_without_constructor
    (genIR : FunctionDef → Bool → IRnode) (fuel : Nat)
    (fns : List FunctionDef) (imm : Nat) (order : List FunctionDef)
    (hsort : _topsort (calleeDefs fns) fuel fns = some order)
    (hnoc : ∀ f ∈ fns, f.is_constructor = false) :
    (imm ≠ 0 → generate_ir_for_module genIR fuel fns imm
      = .error (.panic ("unreachable"))) ∧
    (generate_ir_for_module genIR fuel fns 0 =
      .ok (IRnode.simple (.str ("seq"))
            [IRnode.simple (.str ("deploy"))
              [IRnode.simple (.num 0) [],
               (_runtime_ir genIR (order.filter (fun f => !f.is_constructor))).1,
               IRnode.simple (.num 0) []]],
           (_runtime_ir genIR (order.filter (fun f => !f.is_constructor))).1)) := by
  have hsub : ∀ x ∈ order, x ∈ fns :=
    topsort_subset (calleeDefs fns) fuel fns order (calleeDefs_mem fns) hsort
  have hfind : order.find? (fun f => f.is_constructor) = none := by
    apply List.find?_eq_none.mpr
    intro x hx
    simp [hnoc x (hsub x hx)]
  constructor
  · intro himm
    simp only [generate_ir_for_module, hsort, hfind]
    rw [if_pos himm]
  · simp only [generate_ir_for_module, hsort, hfind]
    rw [if_neg (by omega : ¬ (0 : Nat) ≠ 0)]

theorem module_without_constructor_witness :
    ((5 : Nat) ≠ 0 → generate_ir_for_module genIRex 3 [payF, nonpayF] 5
      = .error (.panic ("unreachable"))) ∧
    (generate_ir_for_module genIRex 3 [payF, nonpayF] 0 =
      .ok (IRnode.simple (.str ("seq"))
            [IRnode.simple (.str ("deploy"))
              [IRnode.simple (.num 0) [],
               (_runtime_ir genIRex
                 (([payF, nonpayF]).filter (fun f => !f.is_constructor))).1,
               IRnode.simple (.num 0) []]],
           (_runtime_ir genIRex
             (([payF, nonpayF]).filter (fun f => !f.is_constructor))).1)) :=
  module_without_constructor genIRex 3 [payF, nonpayF] 5 [payF, nonpayF]
    (by decide) (by decide)

theorem assert_not_mem_genIR (genIR : FunctionDef → Bool → IRnode)
    (hgen : ∀ f b, genIR f b ≠ assertValueZero) (l : List FunctionDef) (c : Bool) :
    assertValueZero ∉ l.map (fun f => genIR f c) := by
  intro h
  rcases List.mem_map.mp h with ⟨f, _, hf⟩
  exact hgen f c hf

/-- C1: `batch_payable_check` holds exactly when a nonpayable regular
function exists and the fallback is absent or nonpayable; when it holds,
the dispatch body is the payable bodies, then exactly one combined
callvalue-zero assertion, then the nonpayable bodies all generated with
skip-check true (and the fallback with skip-check true); when it fails, no
combined assertion appears and every nonpayable body and the fallback are
generated with skip-check false.  The last conjunct places the dispatch
body inside the assembled runtime tree.  (`hgen`: the opaque per-function
bodies are never the literal assertion node.) -/
theorem runtime_dispatch_payable_batching
    (genIR : FunctionDef → Bool → IRnode) (fns : List FunctionDef)
    (hgen : ∀ f b, genIR f b ≠ assertValueZero) :
    (batchPayableCheck fns = true ↔
      (nonpayablesOf fns ≠ [] ∧
       ∀ d, defaultFunctionOf fns = some d → d.is_payable = false)) ∧
    (batchPayableCheck fns = true →
      dispatchBodyOf genIR fns
        = ((payablesOf fns).map (fun f => genIR f false))
          ++ assertValueZero :: ((nonpayablesOf fns).map (fun f => genIR f true))
      ∧ (dispatchBodyOf genIR fns).count assertValueZero = 1
      ∧ fallbackIROf genIR fns
        = (match defaultFunctionOf fns with
           | some d => genIR d true
           | none => fallbackRevert)) ∧
    (batchPayableCheck fns = false →
      dispatchBodyOf genIR fns
        = ((payablesOf fns).map (fun f => genIR f false))
          ++ ((nonpayablesOf fns).map (fun f => genIR f false))
      ∧ (dispatchBodyOf genIR fns).count assertValueZero = 0
      ∧ fallbackIROf genIR fns
        = (match defaultFunctionOf fns with
           | some d => genIR d false
           | none => fallbackRevert)) ∧
    ((externalFunctionsOf fns).isEmpty = false →
      (_runtime_ir genIR fns).1.children[0]?
        = some (IRnode.simple (.str ("with"))
            [IRnode.simple (.str ("_calldata_method_id")) [], shrSelector,
             IRnode.simple (.str ("seq")) (dispatchBodyOf genIR fns)])) := by
  have hp0 := List.count_eq_zero.mpr
    (assert_not_mem_genIR genIR hgen (payablesOf fns) false)
  refine ⟨?_, ?_, ?_, ?_⟩
  · cases hd : defaultFunctionOf fns with
    | none => simp [batchPayableCheck, defaultIsNonpayable, hd, List.isEmpty_iff]
    | some d => simp [batchPayableCheck, defaultIsNonpayable, hd, List.isEmpty_iff]
  · intro hb
    refine ⟨?_, ?_, ?_⟩
    · simp [dispatchBodyOf, hb]
    · have hn0 := List.count_eq_zero.mpr
        (assert_not_mem_genIR genIR hgen (nonpayablesOf fns) true)
      simp [dispatchBodyOf, hb, List.count_append, hp0, hn0]
    · cases hd : defaultFunctionOf fns with
      | none => simp [fallbackIROf, hd]
      | some d => simp [fallbackIROf, hd, hb]
  · intro hb
    refine ⟨?_, ?_, ?_⟩
    · simp [dispatchBodyOf, hb]
    · have hn0 := List.count_eq_zero.mpr
        (assert_not_mem_genIR genIR hgen (nonpayablesOf fns) false)
      simp [dispatchBodyOf, hb, List.count_append, hp0, hn0]
    · cases hd : defaultFunctionOf fns with
      | none => simp [fallbackIROf, hd]
      | some d => simp [fallbackIROf, hd, hb]
  · intro hext
    simp [_runtime_ir, hext, IRnode.children, IRnode.simple]

theorem runtime_dispatch_payable_batching_witness :
    dispatchBodyOf genIRex [payF, nonpayF]
      = [genIRex payF false, assertValueZero, genIRex nonpayF true] := by
  have h := (runtime_dispatch_payable_batching genIRex [payF, nonpayF]
    (fun f b hcontra => by
      simp [genIRex, assertValueZero, IRnode.simple] at hcontra)).2.1 (by decide)
  rw [h.1]
  decide

/-- C3: on an acyclic call graph (witnessed by a rank function decreasing
along call edges) whose callee edges stay inside the input list, the
topological orderer succeeds for some recursion depth, and its output lists
each input function exactly once with every directly or transitively
reachable callee strictly before its caller. -/
theorem topsort_acyclic_linearizes {α : Type} [DecidableEq α]
    (callees : α → List α) (functions : List α) (rank : α → Nat)
    (hrank : ∀ g c, c ∈ callees g → rank c < rank g)
    (hclosed : ∀ g c, c ∈ callees g → c ∈ functions) :
    ∃ (fuel : Nat) (out : List α),
      _topsort callees fuel functions = some out ∧
      out.Nodup ∧
      (∀ x, x ∈ out ↔ x ∈ functions) ∧
      (∀ f c, f ∈ functions → Reaches callees f c →
        out.indexOf c < out.indexOf f) := by
  obtain ⟨fuel, r, hr⟩ :=
    topsort_helper_exists callees rank hrank
      (((functions.map rank).foldr max 0) + 1) functions
      (fun f hf => by have := rank_le_fold rank functions f hf; omega)
  refine ⟨fuel, dedupFirst r, ?_, nodup_dedupFirstAux r [], ?_, ?_⟩
  · rw [_topsort, hr]
    rfl
  · intro x
    rw [mem_dedupFirst]
    constructor
    · intro hx
      exact topsort_helper_closed callees functions hclosed fuel functions r
        (fun y hy => hy) hr x hx
    · intro hx
      exact topsort_helper_mem callees fuel functions r hr x hx
  · have hstep : ∀ g e, g ∈ functions → e ∈ callees g →
        (dedupFirst r).indexOf e < (dedupFirst r).indexOf g := by
      intro g e hg he
      have hgr : g ∈ r := topsort_helper_mem callees fuel functions r hr g hg
      obtain ⟨her, hlt⟩ :=
        topsort_helper_callee_lt callees fuel functions r hr g e hgr he
      exact dedupFirstAux_indexOf_lt r [] e g (List.not_mem_nil e)
        (List.not_mem_nil g) her hgr hlt
    have hmain : ∀ f c, Reaches callees f c → f ∈ functions →
        (dedupFirst r).indexOf c < (dedupFirst r).indexOf f := by
      intro f c hreach
      induction hreach with
      | direct hc => intro hf; exact hstep _ _ hf hc
      | step hc hrch ih =>
        intro hf
        exact lt_trans (ih (hclosed _ _ hc)) (hstep _ _ hf hc)
    exact fun f c hf hreach => hmain f c hreach hf

theorem topsort_acyclic_linearizes_witness :
    ∃ (fuel : Nat) (out : List String),
      _topsort (fun s => if s = ("a") then [("b")] else []) fuel [("a"), ("b")]
        = some out ∧
      out.Nodup ∧
      (∀ x, x ∈ out ↔ x ∈ [("a"), ("b")]) ∧
      (∀ f c, f ∈ [("a"), ("b")] →
        Reaches (fun s => if s = ("a") then [("b")] else []) f c →
        out.indexOf c < out.indexOf f) :=
  topsort_acyclic_linearizes (fun s => if s = ("a") then [("b")] else [])
    [("a"), ("b")] (fun s => if s = ("a") then 1 else 0)
    (by
      intro g c hc
      by_cases hg : g = ("a")
      · subst hg
        simp at hc
        subst hc
        decide
      · simp [hg] at hc)
    (by
      intro g c hc
      by_cases hg : g = ("a")
      · subst hg
        simp at hc
        subst hc
        decide
      · simp [hg] at hc)

theorem ir_for_self_call_ok_inv (func_t : FuncT) (pos : List IRnode) (src : String)
    (ctx : Context) (lc : Nat) (out : IRnode) (ctx2 : Context) (lc2 : Nat)
    (h : ir_for_self_call func_t pos src ctx lc = .ok (out, ctx2, lc2)) :
    out = (selfCallOk func_t pos src ctx lc).1 ∧
    ctx2 = (selfCallOk func_t pos src ctx lc).2.1 ∧
    lc2 = (selfCallOk func_t pos src ctx lc).2.2 := by
  rw [ir_for_self_call] at h
  split at h
  · simp at h
  · split at h
    · simp at h
    · split at h
      · simp at h
      · simp only [Except.ok.injEq] at h
        exact ⟨congrArg (fun r => r.1) h.symm, congrArg (fun r => r.2.1) h.symm,
               congrArg (fun r => r.2.2) h.symm⟩

theorem ir_for_self_call_ok_any_counter (func_t : FuncT) (pos : List IRnode)
    (src : String) (ctx : Context) (lc' : Nat)
    (h : ∃ lc r, ir_for_self_call func_t pos src ctx lc = .ok r) :
    ir_for_self_call func_t pos src ctx lc' = .ok (selfCallOk func_t pos src ctx lc') := by
  rcases h with ⟨lc, r, h⟩
  cases ha : _align_kwargs func_t pos with
  | error e => rw [ir_for_self_call, ha] at h; simp at h
  | ok p =>
    rw [ir_for_self_call, ha] at h
    rw [ir_for_self_call, ha]
    by_cases h1 : (ctx.is_constant && func_t.is_modifying) = true
    · rw [if_pos h1] at h; simp at h
    · rw [if_neg h1] at h
      rw [if_neg h1]
      by_cases h2 : func_t.is_internal = false
      · rw [if_pos h2] at h; simp at h
      · rw [if_neg h2]

theorem copyArgsOf_direct (func_t : FuncT) (pos : List IRnode) (c1 : Context)
    (h : (selfCallArgsIR func_t pos).any contains_self_call = false) :
    copyArgsOf func_t pos c1
      = (make_setter (argsDstOf func_t) (argsAsTupleOf func_t pos), c1) := by
  rw [copyArgsOf, if_neg]
  simp [argsAsTupleOf, contains_self_call_mk, h]

theorem copyArgsOf_staged (func_t : FuncT) (pos : List IRnode) (c1 : Context)
    (h : (selfCallArgsIR func_t pos).any contains_self_call = true) :
    copyArgsOf func_t pos c1
      = (IRnode.simple (.str ("seq"))
          [make_setter (tmpBufAt func_t c1.next_var) (argsAsTupleOf func_t pos),
           make_setter (argsDstOf func_t) (tmpBufAt func_t c1.next_var)],
         { c1 with next_var := c1.next_var + typeSize (dstTupleTOf func_t) }) := by
  rw [copyArgsOf, if_pos]
  · rfl
  · simp [argsAsTupleOf, contains_self_call_mk, h]

theorem retBufOf_snd (func_t : FuncT) (lab : String) (ctx : Context) :
    (retBufOf func_t lab ctx).2
      = { ctx with next_var := ctx.next_var + retBufAllocOf func_t } := by
  cases hrt : func_t.return_type with
  | none => simp [retBufOf, retBufAllocOf, hrt]
  | some t => simp [retBufOf, retBufAllocOf, new_internal_variable, hrt]

/-- C2: for an internal call that passes the sanity checks, lowering
succeeds, and: when no argument value contains a nested self-call, the
argument composite is copied directly into the callee's fixed frame (the
copy step of the call sequence is the single bulk copy into the frame) and
the allocator advances only by the return buffer; when some argument
contains a nested self-call, the copy step is a fresh temporary buffer —
allocated at the watermark left by the return-buffer allocation — receiving
the full argument composite, followed by a single bulk copy from that
buffer into the frame, and the allocator additionally advances by the
temporary buffer's size. -/
theorem internal_call_staging (func_t : FuncT) (pos : List IRnode) (src : String)
    (ctx : Context) (lc : Nat)
    (hint : func_t.is_internal = true)
    (harity : func_t.min_arg_count ≤ pos.length ∧ pos.length ≤ func_t.max_arg_count)
    (hconst : (ctx.is_constant && func_t.is_modifying) = false) :
    ∃ out ctx2, ir_for_self_call func_t pos src ctx lc = .ok (out, ctx2, lc + 1) ∧
      ((selfCallArgsIR func_t pos).any contains_self_call = false →
        out.children[1]?
          = some (make_setter (argsDstOf func_t) (argsAsTupleOf func_t pos)) ∧
        ctx2.next_var = ctx.next_var + retBufAllocOf func_t) ∧
      ((selfCallArgsIR func_t pos).any contains_self_call = true →
        out.children[1]? = some (stagedCopyOf func_t pos ctx) ∧
        ctx2.next_var = ctx.next_var + retBufAllocOf func_t
          + typeSize (dstTupleTOf func_t)) := by
  have halign : _align_kwargs func_t pos = .ok (func_t, kwValsFor func_t pos) := by
    rw [_align_kwargs, if_neg (by simp [hint]), if_neg (not_not_intro harity)]
  have hok : ir_for_self_call func_t pos src ctx lc
      = .ok (selfCallOk func_t pos src ctx lc) := by
    rw [ir_for_self_call, halign]
    rw [hconst, if_neg (by simp), hint, if_neg (by simp)]
  refine ⟨(selfCallOk func_t pos src ctx lc).1,
          (selfCallOk func_t pos src ctx lc).2.1, hok, ?_, ?_⟩
  · intro hd
    constructor
    · have h1 : (selfCallOk func_t pos src ctx lc).1.children[1]?
          = some (copyArgsOf func_t pos
              (retBufOf func_t
                (_generate_label (func_t.internal_function_label ++ ("_call")) lc).1
                ctx).2).1 := rfl
      rw [h1, copyArgsOf_direct func_t pos _ hd]
    · have h2 : (selfCallOk func_t pos src ctx lc).2.1
          = (copyArgsOf func_t pos
              (retBufOf func_t
                (_generate_label (func_t.internal_function_label ++ ("_call")) lc).1
                ctx).2).2 := rfl
      rw [h2, copyArgsOf_direct func_t pos _ hd, retBufOf_snd]
  · intro hd
    constructor
    · have h1 : (selfCallOk func_t pos src ctx lc).1.children[1]?
          = some (copyArgsOf func_t pos
              (retBufOf func_t
                (_generate_label (func_t.internal_function_label ++ ("_call")) lc).1
                ctx).2).1 := rfl
      rw [h1, copyArgsOf_staged func_t pos _ hd, retBufOf_snd]
      simp [stagedCopyOf]
    · have h2 : (selfCallOk func_t pos src ctx lc).2.1
          = (copyArgsOf func_t pos
              (retBufOf func_t
                (_generate_label (func_t.internal_function_label ++ ("_call")) lc).1
                ctx).2).2 := rfl
      rw [h2, copyArgsOf_staged func_t pos _ hd, retBufOf_snd]

theorem internal_call_staging_witness :
    ∃ out ctx2, ir_for_self_call exCallHaz [exOut0] ("s")
        { next_var := 256, is_constant := false } 5 = .ok (out, ctx2, 5 + 1) ∧
      ((selfCallArgsIR exCallHaz [exOut0]).any contains_self_call = false →
        out.children[1]?
          = some (make_setter (argsDstOf exCallHaz) (argsAsTupleOf exCallHaz [exOut0])) ∧
        ctx2.next_var = 256 + retBufAllocOf exCallHaz) ∧
      ((selfCallArgsIR exCallHaz [exOut0]).any contains_self_call = true →
        out.children[1]?
          = some (stagedCopyOf exCallHaz [exOut0]
              { next_var := 256, is_constant := false }) ∧
        ctx2.next_var = 256 + retBufAllocOf exCallHaz
          + typeSize (dstTupleTOf exCallHaz)) :=
  internal_call_staging exCallHaz [exOut0] ("s")
    { next_var := 256, is_constant := false } 5 (by decide) (by decide) (by decide)

/-- C10: every successfully lowered internal call is marked with the
"may perform a self-call" flag; consequently, whenever any argument value of
a later internal call contains a previously lowered self-call anywhere in
its tree, the hazard check fires and that call takes the staged
temporary-buffer path. -/
theorem lowered_self_call_flag_and_hazard (func_t : FuncT) (pos : List IRnode)
    (src : String) (ctx : Context) (lc : Nat) (out : IRnode) (ctx2 : Context)
    (lc2 : Nat)
    (hok : ir_for_self_call func_t pos src ctx lc = .ok (out, ctx2, lc2)) :
    out.selfCallFlag = true ∧
    (∀ (pf : FuncT) (ppos : List IRnode) (psrc : String) (pctx : Context)
       (plc : Nat) (pout : IRnode) (pctx2 : Context) (plc2 : Nat),
      ir_for_self_call pf ppos psrc pctx plc = .ok (pout, pctx2, plc2) →
      occursInList pout (selfCallArgsIR func_t pos) = true →
      out.children[1]? = some (stagedCopyOf func_t pos ctx)) := by
  obtain ⟨hout, _, _⟩ :=
    ir_for_self_call_ok_inv func_t pos src ctx lc out ctx2 lc2 hok
  constructor
  · rw [hout]; rfl
  · intro pf ppos psrc pctx plc pout pctx2 plc2 hpok hocc
    obtain ⟨hpout, _, _⟩ :=
      ir_for_self_call_ok_inv pf ppos psrc pctx plc pout pctx2 plc2 hpok
    have hpflag : pout.selfCallFlag = true := by rw [hpout]; rfl
    have hcontains := occursList_contains pout hpflag (selfCallArgsIR func_t pos) hocc
    have hany : (selfCallArgsIR func_t pos).any contains_self_call = true := by
      rw [← containsListSelfCall_eq_any]
      exact hcontains
    rw [hout]
    have h1 : (selfCallOk func_t pos src ctx lc).1.children[1]?
        = some (copyArgsOf func_t pos
            (retBufOf func_t
              (_generate_label (func_t.internal_function_label ++ ("_call")) lc).1
              ctx).2).1 := rfl
    rw [h1, copyArgsOf_staged func_t pos _ hany, retBufOf_snd]
    simp [stagedCopyOf]

theorem lowered_self_call_flag_and_hazard_witness :
    exOutHaz.selfCallFlag = true ∧
    exOutHaz.children[1]?
      = some (stagedCopyOf exCallHaz [exOut0]
          { next_var := 256, is_constant := false }) := by
  have h := lowered_self_call_flag_and_hazard exCallHaz [exOut0] ("s")
    { next_var := 256, is_constant := false } 5 exOutHaz
    { next_var := 256, is_constant := false } 6 (by decide)
  exact ⟨h.1, h.2 exCallee0 [] ("p") { next_var := 256, is_constant := false } 0
    exOut0 { next_var := 256, is_constant := false } 1 (by decide) (by decide)⟩

theorem returnLabelNode_inj (a b : String)
    (h : returnLabelNode a = returnLabelNode b) : a = b := by
  simp [returnLabelNode, IRnode.simple] at h
  exact h

theorem selfCallOk_ir_ne (func_t : FuncT) (pos : List IRnode) (src : String)
    (ctx : Context) (lc lc' : Nat) (hne : lc ≠ lc') :
    (selfCallOk func_t pos src ctx lc).1 ≠ (selfCallOk func_t pos src ctx lc').1 := by
  intro h
  have h3 := congrArg (fun o => o.children[3]?) h
  have e1 : (selfCallOk func_t pos src ctx lc).1.children[3]?
      = some (returnLabelNode
          (_generate_label (func_t.internal_function_label ++ ("_call")) lc).1) := by
    simp [selfCallOk, callSequenceOf, IRnode.children]
  have e2 : (selfCallOk func_t pos src ctx lc').1.children[3]?
      = some (returnLabelNode
          (_generate_label (func_t.internal_function_label ++ ("_call")) lc').1) := by
    simp [selfCallOk, callSequenceOf, IRnode.children]
  simp only at h3
  rw [e1, e2] at h3
  simp only [Option.some.injEq] at h3
  exact generate_label_inj _ _ lc lc' hne (returnLabelNode_inj _ _ h3)

/-- C6 counterexample: lowering the very same internal call twice, the
second run starting from the label-counter state the first run left behind,
yields two different IR trees — the claim that any two such runs produce
identical IR is false on the code, because the label counter is
process-global mutable state. -/
theorem same_input_two_runs_different_ir :
    (ir_for_self_call exCallee0 [] ("p")
        { next_var := 256, is_constant := false } 0).toOption.map (fun r => r.1)
      ≠ (ir_for_self_call exCallee0 [] ("p")
        { next_var := 256, is_constant := false } 1).toOption.map (fun r => r.1) := by
  decide

/-- C6 (amended): the code generator is deterministic only as a function of
the input together with the label-counter state: a successful lowering
advances the counter by one, and re-running the identical input from the
state the first run left behind succeeds but produces a different IR tree
(the return labels differ), so label state is process-global rather than
compilation-session-scoped. -/
theorem generator_label_state_dependence (func_t : FuncT) (pos : List IRnode)
    (src : String) (ctx : Context) (lc : Nat) (out : IRnode) (ctx2 : Context)
    (lc2 : Nat)
    (hok : ir_for_self_call func_t pos src ctx lc = .ok (out, ctx2, lc2)) :
    lc2 = lc + 1 ∧
    ∃ out2 ctx3, ir_for_self_call func_t pos src ctx lc2 = .ok (out2, ctx3, lc2 + 1) ∧
      out2 ≠ out := by
  obtain ⟨hout, _, hlc⟩ :=
    ir_for_self_call_ok_inv func_t pos src ctx lc out ctx2 lc2 hok
  have hlc' : lc2 = lc + 1 := hlc
  have hok2 : ir_for_self_call func_t pos src ctx lc2
      = .ok (selfCallOk func_t pos src ctx lc2) :=
    ir_for_self_call_ok_any_counter func_t pos src ctx lc2 ⟨lc, _, hok⟩
  refine ⟨hlc', (selfCallOk func_t pos src ctx lc2).1,
          (selfCallOk func_t pos src ctx lc2).2.1, hok2, ?_⟩
  rw [hout]
  exact selfCallOk_ir_ne func_t pos src ctx lc2 lc (by omega)

theorem generator_label_state_dependence_witness :
    (1 : Nat) = 0 + 1 ∧
    ∃ out2 ctx3, ir_for_self_call exCallee0 [] ("p")
        { next_var := 256, is_constant := false } 1 = .ok (out2, ctx3, 1 + 1) ∧
      out2 ≠ exOut0 :=
  generator_label_state_dependence exCallee0 [] ("p")
    { next_var := 256, is_constant := false } 0 exOut0
    { next_var := 256, is_constant := false } 1 (by decide)
